import Mathlib

/-!
Verification of the expiry and storage-accounting subsystem of the
Campus Share application (server side).  The definitions below are a
shallow embedding of the relevant JavaScript source:

- src/server/models/User.js            (updateStorage, hasStorageSpace)
- src/server/models/File.js            (save and deleteOne middleware,
                                        getExpiredFiles, extendExpiry)
- the file controller                   (uploadFiles, getFile, deleteFile,
                                        deleteMultipleFiles)
- the scheduled-tasks service           (cleanupExpiredFiles)
- the clipboard model and controller    (getClip, extendExpiry)

Numbers that are byte counts are Nat; the persisted storageUsed field is
Int because the raw MongoDB increment used on the deletion paths can in
principle drive it negative.  Timestamps are Int milliseconds.
-/

namespace CampusShare

/-- Models FILE_CONFIG.EXPIRY_DAYS from src/server/config/constants.js with
the FILE_EXPIRY_DAYS environment variable unset, so the default 7 applies. -/
def FILE_EXPIRY_DAYS : Nat := 7

/-- Models CLIPBOARD_CONFIG.EXPIRY_DAYS from constants.js, default 7. -/
def CLIPBOARD_EXPIRY_DAYS : Nat := 7

/-- Milliseconds in a day, the factor 24 * 60 * 60 * 1000 used by the source. -/
def msPerDay : Nat := 24 * 60 * 60 * 1000

/-- ERROR_MESSAGES.FILE_NOT_FOUND from constants.js. -/
def FILE_NOT_FOUND : String := "File not found"

/-- ERROR_MESSAGES.CLIP_NOT_FOUND from constants.js. -/
def CLIP_NOT_FOUND : String := "Clipboard item not found"

/-- ERROR_MESSAGES.STORAGE_LIMIT from constants.js. -/
def STORAGE_LIMIT_MSG : String := "Storage limit exceeded. Please delete some files"

/-- SUCCESS_MESSAGES.FILE_UPLOADED from constants.js. -/
def FILE_UPLOADED_MSG : String := "File(s) uploaded successfully"

/-- SUCCESS_MESSAGES.FILE_DELETED from constants.js. -/
def FILE_DELETED_MSG : String := "File deleted successfully"

/-- Models the storage fields of a User document (User.js): storageUsed and
storageLimit, both in bytes. -/
structure Account where
  storageUsed : Int
  storageLimit : Int
  deriving Repr, DecidableEq

/-- Models a File document (File.js): _id, owner, size in bytes, path of the
physical payload on disk, and the expiry timestamp.  Identifiers and paths
are abstracted as Nat. -/
structure FileEntry where
  fid : Nat
  userId : Nat
  fileSize : Nat
  filePath : Nat
  expiresAt : Int
  deriving Repr, DecidableEq

/-- Models a Clipboard document (clipboard model): _id, owner and expiry.
Clips hold inline text and do not touch the storage quota. -/
structure ClipEntry where
  cid : Nat
  userId : Nat
  expiresAt : Int
  deriving Repr, DecidableEq

/-- Models one multer-written upload: the id the new File record will get,
the byte size, and the temp path where multer already wrote the payload. -/
structure UploadedFile where
  fid : Nat
  size : Nat
  path : Nat
  deriving Repr, DecidableEq

/-- Status code and message of a JSON response. -/
structure Response where
  status : Nat
  message : String
  deriving Repr, DecidableEq

/-- Global persisted state: every user id resolves to an account record,
files is the File collection, disk the set of payload paths present on the
filesystem. -/
structure St where
  accounts : Nat → Account
  files : List FileEntry
  disk : List Nat

/-- Statistics returned by one sweeper run (scheduled-tasks service). -/
structure SweepResult where
  deletedCount : Nat
  freedSpace : Nat
  deriving Repr, DecidableEq

/-- Models userSchema.methods.updateStorage (User.js lines 167-170):
storageUsed becomes Math.max(0, storageUsed + bytes) and the document is
saved. -/
def updateStorage (a : Account) (bytes : Int) : Account :=
  { a with storageUsed := max 0 (a.storageUsed + bytes) }

/-- Models userSchema.methods.hasStorageSpace (User.js lines 177-179):
true iff storageUsed + bytes is at most storageLimit. -/
def hasStorageSpace (a : Account) (bytes : Int) : Bool :=
  a.storageUsed + bytes ≤ a.storageLimit

/-- Models User.findByIdAndUpdate with an atomic increment of storageUsed,
as issued by the File save and deleteOne middleware and by the sweeper. -/
def incStorage (s : St) (uid : Nat) (delta : Int) : St :=
  { s with accounts := fun v =>
      if v = uid then
        { s.accounts v with storageUsed := (s.accounts v).storageUsed + delta }
      else s.accounts v }

/-- Models saving a user document whose storageUsed path was modified in
memory: the in-memory value overwrites the persisted one. -/
def setStorage (s : St) (uid : Nat) (value : Int) : St :=
  { s with accounts := fun v =>
      if v = uid then { s.accounts v with storageUsed := value }
      else s.accounts v }

/-- Models fs.unlink with the ENOENT error swallowed, as done on every
deletion path of the source: removing an absent path is a success. -/
def unlinkTolerant (disk : List Nat) (p : Nat) : List Nat :=
  disk.filter (fun q => q ≠ p)

/-- Models File.create: the document is inserted and then the post-save
middleware (File.js lines 170-183) increments the owner storageUsed by
fileSize with an atomic update. -/
def fileCreate (s : St) (f : FileEntry) : St :=
  incStorage { s with files := s.files ++ [f] } f.userId (f.fileSize : Int)

/-- Builds the File record the upload controller creates for one uploaded
file: owner is the requesting user, expiresAt is now plus the retention
window. -/
def toEntry (uid : Nat) (now : Int) (u : UploadedFile) : FileEntry :=
  ⟨u.fid, uid, u.size, u.path, now + (FILE_EXPIRY_DAYS * msPerDay : Nat)⟩

/-- Models the uploadFiles controller on the folderId-null path (file
controller lines 131-228).  The request user document is the snapshot
taken when the request was authenticated; in this sequential model that is
the current account record.  On admission each file is created (firing the
post-save increment) and then updateStorage saves the snapshot value plus
the batch total, overwriting those increments.  On denial the multer temp
payloads are unlinked and nothing else changes. -/
def uploadFiles (s : St) (uid : Nat) (now : Int) (batch : List UploadedFile) :
    Response × St :=
  if batch.isEmpty then
    (⟨400, "No files uploaded"⟩, s)
  else
    let totalSize : Int := (batch.map (fun u => (u.size : Int))).sum
    let reqUser := s.accounts uid
    if hasStorageSpace reqUser totalSize then
      let s1 := batch.foldl (fun t u => fileCreate t (toEntry uid now u)) s
      let s2 := setStorage s1 uid (updateStorage reqUser totalSize).storageUsed
      (⟨201, FILE_UPLOADED_MSG⟩, s2)
    else
      (⟨400, STORAGE_LIMIT_MSG⟩,
       { s with disk := batch.foldl (fun d u => unlinkTolerant d u.path) s.disk })

/-- Models document.deleteOne on a File: the pre-deleteOne middleware
(File.js lines 188-205) unlinks the payload tolerating absence and applies
a raw increment of minus fileSize to the owner, then the record itself is
removed. -/
def docDeleteOne (s : St) (f : FileEntry) : St :=
  let s1 := incStorage { s with disk := unlinkTolerant s.disk f.filePath }
      f.userId (-(f.fileSize : Int))
  { s1 with files := s1.files.eraseP (fun g => g.fid == f.fid) }

/-- Models the deleteFile controller (file controller lines 444-474):
find the file by id and owner, 404 if absent, otherwise document delete. -/
def deleteFile (s : St) (uid : Nat) (fid : Nat) : Response × St :=
  match s.files.find? (fun f => f.fid == fid && f.userId == uid) with
  | none => (⟨404, FILE_NOT_FOUND⟩, s)
  | some f => (⟨200, FILE_DELETED_MSG⟩, docDeleteOne s f)

/-- Models the deleteMultipleFiles controller (file controller lines
481-525): find the files owned by the user among the requested ids, 404 if
none, otherwise document-delete each in turn. -/
def deleteMultipleFiles (s : St) (uid : Nat) (fids : List Nat) : Response × St :=
  if fids.isEmpty then
    (⟨400, "Please provide an array of file IDs"⟩, s)
  else
    let matched := s.files.filter (fun f => fids.contains f.fid && f.userId == uid)
    if matched.isEmpty then
      (⟨404, "No files found"⟩, s)
    else
      (⟨200, "deleted"⟩, matched.foldl docDeleteOne s)

/-- Models the getFile controller (file controller lines 235-256): findOne
by id and requesting owner; a miss is a 404 with FILE_NOT_FOUND whether the
record is absent or owned by someone else. -/
def getFile (s : St) (uid : Nat) (fid : Nat) : Except Response FileEntry :=
  match s.files.find? (fun f => f.fid == fid && f.userId == uid) with
  | none => .error ⟨404, FILE_NOT_FOUND⟩
  | some f => .ok f

/-- Models the getClip controller (authController.js lines 446-466):
findOne by id and requesting owner; a miss is a 404 with CLIP_NOT_FOUND. -/
def getClip (clips : List ClipEntry) (uid : Nat) (cid : Nat) :
    Except Response ClipEntry :=
  match clips.find? (fun c => c.cid == cid && c.userId == uid) with
  | none => .error ⟨404, CLIP_NOT_FOUND⟩
  | some c => .ok c

/-- Models File.getExpiredFiles (File.js lines 246-250) and the expired
query of the scheduled sweeper: find with expiresAt strictly less than the
given time, no sort, so results keep collection order. -/
def getExpiredFiles (files : List FileEntry) (now : Int) : List FileEntry :=
  files.filter (fun f => f.expiresAt < now)

/-- Models the per-file body of the sweeper loop (scheduled-tasks service
lines 122-151): unlink the payload tolerating absence, then delete the
record with a query-level deleteOne, which does not fire the document
middleware, so no storage update happens here. -/
def sweepDeleteOne (t : St) (f : FileEntry) : St :=
  { t with disk := unlinkTolerant t.disk f.filePath,
           files := t.files.eraseP (fun g => g.fid == f.fid) }

/-- Owners appearing in a list of files, first occurrence first, matching
the iteration order of the userStorageUpdates map of the sweeper. -/
def sweepOwners (l : List FileEntry) : List Nat :=
  (l.map (fun f => f.userId)).dedup

/-- Total bytes of the files of one owner within a list, the per-user sum
the sweeper accumulates in its userStorageUpdates map. -/
def ownerFreed (l : List FileEntry) (uid : Nat) : Nat :=
  ((l.filter (fun f => f.userId == uid)).map (fun f => f.fileSize)).sum

/-- Models cleanupExpiredFiles of the scheduled-tasks service (lines
103-183): query the expired files, delete each record after unlinking its
payload, then apply one raw negative increment per owner with that owner
accumulated total, and report count and freed bytes. -/
def cleanupExpiredFiles (s : St) (now : Int) : SweepResult × St :=
  let expired := getExpiredFiles s.files now
  let s1 := expired.foldl sweepDeleteOne s
  let s2 := (sweepOwners expired).foldl
      (fun t uid => incStorage t uid (-(ownerFreed expired uid : Int))) s1
  (⟨expired.length, (expired.map (fun f => f.fileSize)).sum⟩, s2)

/-- Models fileSchema.methods.extendExpiry (File.js lines 224-227):
expiresAt is set to Date.now() plus days in milliseconds, ignoring the
previous value. -/
def extendExpiry (f : FileEntry) (now : Int) (days : Nat) : FileEntry :=
  { f with expiresAt := now + (days * msPerDay : Nat) }

/-- Models the default-argument call of extendExpiry on a file, where days
is FILE_CONFIG.EXPIRY_DAYS. -/
def extendExpiryDefault (f : FileEntry) (now : Int) : FileEntry :=
  extendExpiry f now FILE_EXPIRY_DAYS

/-- Models clipboardSchema.methods.extendExpiry (clipboard model lines
136-139): same absolute recomputation as for files. -/
def clipExtendExpiry (c : ClipEntry) (now : Int) (days : Nat) : ClipEntry :=
  { c with expiresAt := now + (days * msPerDay : Nat) }

/-- Models the default-argument call of extendExpiry on a clip, where days
is CLIPBOARD_CONFIG.EXPIRY_DAYS. -/
def clipExtendExpiryDefault (c : ClipEntry) (now : Int) : ClipEntry :=
  clipExtendExpiry c now CLIPBOARD_EXPIRY_DAYS

/-- The committed operations that touch the quota: a user upload batch, a
single user delete, a multi delete, and a sweeper run. -/
inductive Op where
  | upload (uid : Nat) (now : Int) (batch : List UploadedFile)
  | delete (uid : Nat) (fid : Nat)
  | deleteMulti (uid : Nat) (fids : List Nat)
  | sweep (now : Int)

/-- One committed operation applied to the state. -/
def stepOp (s : St) (op : Op) : St :=
  match op with
  | .upload uid now batch => (uploadFiles s uid now batch).2
  | .delete uid fid => (deleteFile s uid fid).2
  | .deleteMulti uid fids => (deleteMultipleFiles s uid fids).2
  | .sweep now => (cleanupExpiredFiles s now).2

/-- Well-formedness of an operation in a state: an upload carries fresh,
pairwise distinct record ids, which MongoDB guarantees for generated ids. -/
def WFOp (s : St) : Op → Prop
  | .upload _ _ batch =>
      (batch.map (fun u => u.fid)).Nodup ∧
      ∀ u ∈ batch, ∀ f ∈ s.files, u.fid ≠ f.fid
  | _ => True

/-- Runs a list of committed operations in order. -/
def run (s : St) : List Op → St
  | [] => s
  | op :: ops => run (stepOp s op) ops

/-- Every operation of the list is well formed in the state it runs in. -/
def WFOps (s : St) : List Op → Prop
  | [] => True
  | op :: ops => WFOp s op ∧ WFOps (stepOp s op) ops

/-- Total bytes of the live files of one user. -/
def ownedSize (s : St) (uid : Nat) : Nat :=
  ownerFreed s.files uid

/-- Record ids of the File collection are pairwise distinct. -/
abbrev UniqueIds (s : St) : Prop :=
  (s.files.map (fun f => f.fid)).Nodup

/-- The ledger invariant: ids unique, and every account storageUsed equals
the total size of its live files and stays within its limit. -/
def Good (s : St) : Prop :=
  UniqueIds s ∧
  ∀ uid, (s.accounts uid).storageUsed = (ownedSize s uid : Int) ∧
    (s.accounts uid).storageUsed ≤ (s.accounts uid).storageLimit

/-- Concrete store for the sweeper witness: two files already expired at
time 1000 (expiries 5 and 900, owners 7 and 8) and one future file. -/
def sweepWitSt : St :=
  ⟨fun _ => ⟨30, 1000⟩,
   [⟨1, 7, 10, 11, 5⟩, ⟨2, 8, 20, 12, 900⟩, ⟨3, 7, 5, 13, 2000⟩],
   [11, 12, 13]⟩

/-- Concrete store for the admission witness: usage 900 of a 1000 limit,
with the multer temp payload at path 5 already on disk. -/
def admissionWitSt : St := ⟨fun _ => ⟨900, 1000⟩, [], [5]⟩

/-- Concrete store for the idempotent-remove witness: one 100-byte file of
user 7, payload present on disk. -/
def removeWitSt : St := ⟨fun _ => ⟨100, 1000⟩, [⟨1, 7, 100, 5, 50⟩], [5]⟩

/-- Concrete store for the missing-payload witness: one 100-byte file of
user 7 whose payload path 5 is absent from the disk. -/
def missingWitSt : St := ⟨fun _ => ⟨100, 1000⟩, [⟨1, 7, 100, 5, 50⟩], []⟩

/-- Concrete store for the existence-leak witness: one file and one clip,
both owned by user 8; user 7 is the requester. -/
def leakWitSt : St := ⟨fun _ => ⟨0, 1000⟩, [⟨1, 8, 100, 5, 50⟩], []⟩

/-- The clip collection for the existence-leak witness. -/
def leakWitClips : List ClipEntry := [⟨1, 8, 50⟩]

/-! Helper lemmas about the embedded operations. -/

theorem incStorage_files (s : St) (uid : Nat) (d : Int) :
    (incStorage s uid d).files = s.files := rfl

theorem incStorage_disk (s : St) (uid : Nat) (d : Int) :
    (incStorage s uid d).disk = s.disk := rfl

theorem incStorage_accounts (s : St) (uid : Nat) (d : Int) (v : Nat) :
    (incStorage s uid d).accounts v =
      if v = uid then
        { s.accounts v with storageUsed := (s.accounts v).storageUsed + d }
      else s.accounts v := rfl

theorem setStorage_files (s : St) (uid : Nat) (x : Int) :
    (setStorage s uid x).files = s.files := rfl

theorem setStorage_accounts (s : St) (uid : Nat) (x : Int) (v : Nat) :
    (setStorage s uid x).accounts v =
      if v = uid then { s.accounts v with storageUsed := x }
      else s.accounts v := rfl

theorem docDeleteOne_files (s : St) (f : FileEntry) :
    (docDeleteOne s f).files = s.files.eraseP (fun g => g.fid == f.fid) := rfl

theorem docDeleteOne_accounts (s : St) (f : FileEntry) (v : Nat) :
    (docDeleteOne s f).accounts v =
      if v = f.userId then
        { s.accounts v with storageUsed :=
            (s.accounts v).storageUsed - (f.fileSize : Int) }
      else s.accounts v := by
  simp only [docDeleteOne, incStorage, sub_eq_add_neg]

theorem fileCreate_files (s : St) (f : FileEntry) :
    (fileCreate s f).files = s.files ++ [f] := rfl

theorem foldCreate_files (uid : Nat) (now : Int) :
    ∀ (batch : List UploadedFile) (s : St),
      (batch.foldl (fun t u => fileCreate t (toEntry uid now u)) s).files
        = s.files ++ batch.map (toEntry uid now)
  | [], s => by simp [List.foldl]
  | u :: tl, s => by
      rw [List.foldl_cons, foldCreate_files uid now tl]
      simp [fileCreate_files]

theorem foldCreate_accounts_ne (uid : Nat) (now : Int) :
    ∀ (batch : List UploadedFile) (s : St) (v : Nat), v ≠ uid →
      (batch.foldl (fun t u => fileCreate t (toEntry uid now u)) s).accounts v
        = s.accounts v
  | [], _, _, _ => rfl
  | u :: tl, s, v, hv => by
      rw [List.foldl_cons, foldCreate_accounts_ne uid now tl _ v hv]
      simp [fileCreate, incStorage_accounts, toEntry, hv]

theorem foldCreate_limit (uid : Nat) (now : Int) :
    ∀ (batch : List UploadedFile) (s : St) (v : Nat),
      ((batch.foldl (fun t u => fileCreate t (toEntry uid now u)) s).accounts v).storageLimit
        = (s.accounts v).storageLimit
  | [], _, _ => rfl
  | u :: tl, s, v => by
      rw [List.foldl_cons, foldCreate_limit uid now tl]
      by_cases hv : v = uid <;>
        simp [fileCreate, incStorage_accounts, toEntry, hv]

theorem mem_unlinkTolerant (d : List Nat) (p q : Nat) :
    q ∈ unlinkTolerant d p ↔ q ∈ d ∧ q ≠ p := by
  simp [unlinkTolerant]

theorem unlinkFold_subset :
    ∀ (l : List UploadedFile) (d : List Nat) (x : Nat),
      x ∈ l.foldl (fun e u => unlinkTolerant e u.path) d → x ∈ d
  | [], _, _, h => h
  | u :: tl, d, x, h => by
      rw [List.foldl_cons] at h
      exact ((mem_unlinkTolerant d u.path x).mp (unlinkFold_subset tl _ x h)).1

theorem unlinkFold_not_mem :
    ∀ (l : List UploadedFile) (d : List Nat) (u : UploadedFile), u ∈ l →
      u.path ∉ l.foldl (fun e v => unlinkTolerant e v.path) d
  | [], _, _, hu => absurd hu (List.not_mem_nil _)
  | v :: tl, d, u, hu => by
      rw [List.foldl_cons]
      rcases List.mem_cons.mp hu with h | h
      · subst h
        intro hmem
        have := (mem_unlinkTolerant d u.path u.path).mp (unlinkFold_subset tl _ _ hmem)
        exact this.2 rfl
      · exact unlinkFold_not_mem tl _ u h

theorem ownerFreed_append (a b : List FileEntry) (uid : Nat) :
    ownerFreed (a ++ b) uid = ownerFreed a uid + ownerFreed b uid := by
  simp [ownerFreed]

theorem ownerFreed_cons (f : FileEntry) (l : List FileEntry) (uid : Nat) :
    ownerFreed (f :: l) uid =
      (if f.userId = uid then f.fileSize else 0) + ownerFreed l uid := by
  by_cases h : f.userId = uid <;> simp [ownerFreed, List.filter_cons, h]

theorem ownerFreed_partition (p : FileEntry → Bool) :
    ∀ (l : List FileEntry) (uid : Nat),
      ownerFreed l uid =
        ownerFreed (l.filter p) uid + ownerFreed (l.filter (fun f => !p f)) uid
  | [], _ => rfl
  | f :: tl, uid => by
      have ih := ownerFreed_partition p tl uid
      cases hp : p f <;>
        simp [List.filter_cons, hp, ownerFreed_cons, ih] <;> omega

theorem erase_decomp (files : List FileEntry) (f : FileEntry)
    (hN : (files.map (fun g => g.fid)).Nodup) (hf : f ∈ files) :
    ∃ l1 l2, files = l1 ++ f :: l2 ∧
      files.eraseP (fun g => g.fid == f.fid) = l1 ++ l2 ∧
      (∀ g ∈ l1, g.fid ≠ f.fid) ∧ (∀ g ∈ l2, g.fid ≠ f.fid) := by
  have pa : (fun g : FileEntry => g.fid == f.fid) f = true := by simp
  obtain ⟨a, l1, l2, hl1, hpa, hsplit, herase⟩ :=
    @List.exists_of_eraseP FileEntry (fun g => g.fid == f.fid) files f hf pa
  have ha : a ∈ files := by rw [hsplit]; exact List.mem_append_right l1 (List.mem_cons_self a l2)
  have hfid : a.fid = f.fid := by simpa using hpa
  have haf : a = f := List.inj_on_of_nodup_map hN ha hf hfid
  subst haf
  refine ⟨l1, l2, hsplit, herase, ?_, ?_⟩
  · intro g hg
    have := hl1 g hg
    simpa using this
  · intro g hg
    have hN2 : ((l1 ++ a :: l2).map (fun g => g.fid)).Nodup := by rw [← hsplit]; exact hN
    rw [List.map_append, List.map_cons] at hN2
    have h2 := (List.nodup_append.mp hN2).2.1
    have h3 := (List.nodup_cons.mp h2).1
    intro hcontra
    exact h3 (hcontra ▸ List.mem_map_of_mem (fun g => g.fid) hg)

theorem uniqueIds_docDeleteOne (s : St) (f : FileEntry) (hN : UniqueIds s) :
    UniqueIds (docDeleteOne s f) := by
  have hsub : List.Sublist ((docDeleteOne s f).files) s.files := by
    rw [docDeleteOne_files]
    exact List.eraseP_sublist s.files
  exact List.Nodup.sublist (hsub.map (fun g => g.fid)) hN

theorem good_docDeleteOne (s : St) (f : FileEntry) (hg : Good s) (hf : f ∈ s.files) :
    Good (docDeleteOne s f) := by
  obtain ⟨hN, hacc⟩ := hg
  obtain ⟨l1, l2, hsplit, herase, hfid1, hfid2⟩ := erase_decomp s.files f hN hf
  refine ⟨uniqueIds_docDeleteOne s f hN, ?_⟩
  intro uid
  have hfiles : (docDeleteOne s f).files = l1 ++ l2 := by
    rw [docDeleteOne_files, herase]
  have howned : ownedSize (docDeleteOne s f) uid
      = ownerFreed l1 uid + ownerFreed l2 uid := by
    rw [ownedSize, hfiles, ownerFreed_append]
  have howned0 : ownedSize s uid =
      ownerFreed l1 uid + ((if f.userId = uid then f.fileSize else 0) + ownerFreed l2 uid) := by
    rw [ownedSize, hsplit, ownerFreed_append, ownerFreed_cons]
  obtain ⟨heq, hle⟩ := hacc uid
  rw [docDeleteOne_accounts]
  by_cases huid : uid = f.userId
  · simp only [if_pos huid]
    constructor
    · show (s.accounts uid).storageUsed - (f.fileSize : Int)
        = (ownedSize (docDeleteOne s f) uid : Int)
      rw [heq, howned, howned0, if_pos huid.symm]
      push_cast
      ring
    · show (s.accounts uid).storageUsed - (f.fileSize : Int)
        ≤ (s.accounts uid).storageLimit
      have hnn : (0 : Int) ≤ (f.fileSize : Int) := Int.natCast_nonneg _
      omega
  · simp only [if_neg huid]
    refine ⟨?_, hle⟩
    rw [heq, howned, howned0, if_neg (fun h => huid h.symm)]
    push_cast
    ring

theorem mem_docDeleteOne_files (s : St) (f g : FileEntry) (hN : UniqueIds s)
    (hf : f ∈ s.files) (hg : g ∈ s.files) (hne : g ≠ f) :
    g ∈ (docDeleteOne s f).files := by
  obtain ⟨l1, l2, hsplit, herase, _, _⟩ := erase_decomp s.files f hN hf
  rw [docDeleteOne_files, herase]
  rw [hsplit] at hg
  rcases List.mem_append.mp hg with h | h
  · exact List.mem_append_left l2 h
  · rcases List.mem_cons.mp h with h | h
    · exact absurd h hne
    · exact List.mem_append_right l1 h

theorem good_foldDelete :
    ∀ (l : List FileEntry) (s : St), Good s → l.Nodup → (∀ f ∈ l, f ∈ s.files) →
      Good (l.foldl docDeleteOne s)
  | [], s, hg, _, _ => hg
  | f :: tl, s, hg, hnd, hmem => by
      rw [List.foldl_cons]
      have hf : f ∈ s.files := hmem f (List.mem_cons_self f tl)
      have hg2 := good_docDeleteOne s f hg hf
      have hnd2 := (List.nodup_cons.mp hnd).2
      have hfm := (List.nodup_cons.mp hnd).1
      refine good_foldDelete tl (docDeleteOne s f) hg2 hnd2 ?_
      intro g hgtl
      have hgs : g ∈ s.files := hmem g (List.mem_cons_of_mem f hgtl)
      have hgf : g ≠ f := fun h => hfm (h ▸ hgtl)
      exact mem_docDeleteOne_files s f g hg.1 hf hgs hgf

theorem good_deleteFile (s : St) (uid fid : Nat) (hg : Good s) :
    Good (deleteFile s uid fid).2 := by
  unfold deleteFile
  cases hfind : s.files.find? (fun f => f.fid == fid && f.userId == uid) with
  | none => exact hg
  | some f =>
      have hf : f ∈ s.files := List.mem_of_find?_eq_some hfind
      exact good_docDeleteOne s f hg hf

theorem good_deleteMultipleFiles (s : St) (uid : Nat) (fids : List Nat) (hg : Good s) :
    Good (deleteMultipleFiles s uid fids).2 := by
  unfold deleteMultipleFiles
  by_cases he : fids.isEmpty
  · simp [he, hg]
  · simp only [he, if_false]
    set matched := s.files.filter (fun f => fids.contains f.fid && f.userId == uid) with hm
    by_cases hme : matched.isEmpty
    · simp [hme, hg]
    · simp only [hme, if_false]
      have hsub : List.Sublist matched s.files := by
        rw [hm]; exact List.filter_sublist s.files
      have hN : (s.files.map (fun f => f.fid)).Nodup := hg.1
      have hnd : matched.Nodup := (List.Nodup.of_map (fun f => f.fid) hN).sublist hsub
      exact good_foldDelete matched s hg hnd (fun f hf => hsub.mem hf)

theorem sumInt_eq (batch : List UploadedFile) :
    (batch.map (fun u => (u.size : Int))).sum
      = (Nat.cast ((batch.map (fun u => u.size)).sum) : Int) := by
  induction batch with
  | nil => rfl
  | cons u tl ih => simp [ih]

theorem ownerFreed_toEntries (uid : Nat) (now : Int) :
    ∀ batch : List UploadedFile,
      ownerFreed (batch.map (toEntry uid now)) uid = (batch.map (fun u => u.size)).sum
  | [] => rfl
  | u :: tl => by
      rw [List.map_cons, ownerFreed_cons, ownerFreed_toEntries uid now tl]
      simp [toEntry]

theorem ownerFreed_toEntries_ne (uid : Nat) (now : Int) (v : Nat) (hv : v ≠ uid) :
    ∀ batch : List UploadedFile, ownerFreed (batch.map (toEntry uid now)) v = 0
  | [] => rfl
  | u :: tl => by
      rw [List.map_cons, ownerFreed_cons, ownerFreed_toEntries_ne uid now v hv tl]
      have hne : (toEntry uid now u).userId ≠ v := fun h => hv h.symm
      rw [if_neg hne]

theorem uploadFiles_empty_state (s : St) (uid : Nat) (now : Int)
    (batch : List UploadedFile) (he : batch.isEmpty = true) :
    uploadFiles s uid now batch = (⟨400, "No files uploaded"⟩, s) := by
  simp only [uploadFiles]
  rw [if_pos he]

theorem uploadFiles_admit_state (s : St) (uid : Nat) (now : Int)
    (batch : List UploadedFile) (he : ¬batch.isEmpty = true)
    (hsp : hasStorageSpace (s.accounts uid)
      ((batch.map (fun u => (u.size : Int))).sum) = true) :
    uploadFiles s uid now batch
      = (⟨201, FILE_UPLOADED_MSG⟩,
         setStorage (batch.foldl (fun t u => fileCreate t (toEntry uid now u)) s) uid
           (updateStorage (s.accounts uid)
             ((batch.map (fun u => (u.size : Int))).sum)).storageUsed) := by
  simp only [uploadFiles]
  rw [if_neg he, if_pos hsp]

theorem uploadFiles_deny_state (s : St) (uid : Nat) (now : Int)
    (batch : List UploadedFile) (he : ¬batch.isEmpty = true)
    (hsp : ¬hasStorageSpace (s.accounts uid)
      ((batch.map (fun u => (u.size : Int))).sum) = true) :
    uploadFiles s uid now batch
      = (⟨400, STORAGE_LIMIT_MSG⟩,
         { s with disk := batch.foldl (fun d u => unlinkTolerant d u.path) s.disk }) := by
  simp only [uploadFiles]
  rw [if_neg he, if_neg hsp]

theorem good_admitState (s : St) (uid : Nat) (now : Int) (batch : List UploadedFile)
    (hg : Good s)
    (hA : (batch.map (fun u => u.fid)).Nodup)
    (hB : ∀ u ∈ batch, ∀ f ∈ s.files, u.fid ≠ f.fid)
    (hsp : hasStorageSpace (s.accounts uid)
      ((batch.map (fun u => (u.size : Int))).sum) = true) :
    Good (setStorage (batch.foldl (fun t u => fileCreate t (toEntry uid now u)) s) uid
      (updateStorage (s.accounts uid)
        ((batch.map (fun u => (u.size : Int))).sum)).storageUsed) := by
  set S : Int := (batch.map (fun u => (u.size : Int))).sum with hS
  set s1 := batch.foldl (fun t u => fileCreate t (toEntry uid now u)) s with hs1
  set V : Int := (updateStorage (s.accounts uid) S).storageUsed with hV
  have hfiles1 : s1.files = s.files ++ batch.map (toEntry uid now) :=
    foldCreate_files uid now batch s
  have h0 : (0 : Int) ≤ (s.accounts uid).storageUsed := by
    rw [(hg.2 uid).1]
    exact Int.natCast_nonneg _
  have h1 : (0 : Int) ≤ S := by
    rw [hS, sumInt_eq]
    exact Int.natCast_nonneg _
  have hVeq : V = (s.accounts uid).storageUsed + S := by
    rw [hV, updateStorage]
    exact max_eq_right (by omega)
  constructor
  · show ((setStorage s1 uid V).files.map (fun f => f.fid)).Nodup
    rw [setStorage_files, hfiles1, List.map_append, List.map_map]
    have hcomp : ((fun f : FileEntry => f.fid) ∘ toEntry uid now)
        = fun u : UploadedFile => u.fid := rfl
    rw [hcomp]
    refine List.nodup_append.mpr ⟨hg.1, hA, ?_⟩
    intro a ha hb
    obtain ⟨f, hfmem, hfa⟩ := List.mem_map.mp ha
    obtain ⟨u, humem, hua⟩ := List.mem_map.mp hb
    exact hB u humem f hfmem (hua.trans hfa.symm)
  · intro v
    have hlim : ((setStorage s1 uid V).accounts v).storageLimit
        = (s.accounts v).storageLimit := by
      rw [setStorage_accounts]
      by_cases hv : v = uid
      · rw [if_pos hv]
        exact foldCreate_limit uid now batch s v
      · rw [if_neg hv]
        exact foldCreate_limit uid now batch s v
    have howned : ownedSize (setStorage s1 uid V) v
        = ownerFreed s.files v + ownerFreed (batch.map (toEntry uid now)) v := by
      rw [ownedSize, setStorage_files, hfiles1, ownerFreed_append]
    by_cases hv : v = uid
    · subst hv
      have hused : ((setStorage s1 v V).accounts v).storageUsed = V := by
        rw [setStorage_accounts, if_pos rfl]
      constructor
      · rw [hused, howned, hVeq, ownerFreed_toEntries, (hg.2 v).1, ownedSize, hS, sumInt_eq]
        push_cast
        ring
      · rw [hused, hlim, hVeq]
        exact of_decide_eq_true hsp
    · have hused : ((setStorage s1 uid V).accounts v).storageUsed
          = (s.accounts v).storageUsed := by
        rw [setStorage_accounts, if_neg hv]
        show ((s1.accounts v)).storageUsed = _
        rw [hs1, foldCreate_accounts_ne uid now batch s v hv]
      constructor
      · rw [hused, howned, ownerFreed_toEntries_ne uid now v hv, (hg.2 v).1, ownedSize]
        push_cast
        ring
      · rw [hused, hlim]
        exact (hg.2 v).2

theorem good_uploadFiles (s : St) (uid : Nat) (now : Int) (batch : List UploadedFile)
    (hg : Good s)
    (hA : (batch.map (fun u => u.fid)).Nodup)
    (hB : ∀ u ∈ batch, ∀ f ∈ s.files, u.fid ≠ f.fid) :
    Good (uploadFiles s uid now batch).2 := by
  by_cases he : batch.isEmpty = true
  · rw [uploadFiles_empty_state s uid now batch he]
    exact hg
  · by_cases hsp : hasStorageSpace (s.accounts uid)
        ((batch.map (fun u => (u.size : Int))).sum) = true
    · rw [uploadFiles_admit_state s uid now batch he hsp]
      exact good_admitState s uid now batch hg hA hB hsp
    · rw [uploadFiles_deny_state s uid now batch he hsp]
      exact hg

theorem sweepDeleteOne_files (t : St) (f : FileEntry) :
    (sweepDeleteOne t f).files = t.files.eraseP (fun g => g.fid == f.fid) := rfl

theorem foldSweep_accounts :
    ∀ (l : List FileEntry) (s : St), (l.foldl sweepDeleteOne s).accounts = s.accounts
  | [], _ => rfl
  | f :: tl, s => by
      rw [List.foldl_cons]
      exact foldSweep_accounts tl _

theorem foldSweep_files :
    ∀ (l : List FileEntry) (s : St), UniqueIds s → l.Nodup → (∀ f ∈ l, f ∈ s.files) →
      (l.foldl sweepDeleteOne s).files = s.files.filter (fun g => !(decide (g ∈ l)))
  | [], s, _, _, _ => by simp
  | f :: tl, s, hN, hnd, hmem => by
      rw [List.foldl_cons]
      have hf : f ∈ s.files := hmem f (List.mem_cons_self f tl)
      obtain ⟨l1, l2, hsplit, herase, hfid1, hfid2⟩ := erase_decomp s.files f hN hf
      have hfiles2 : (sweepDeleteOne s f).files = l1 ++ l2 := by
        rw [sweepDeleteOne_files, herase]
      have hN2 : UniqueIds (sweepDeleteOne s f) := by
        have hsub : List.Sublist ((sweepDeleteOne s f).files) s.files := by
          rw [sweepDeleteOne_files]
          exact List.eraseP_sublist s.files
        exact List.Nodup.sublist (hsub.map (fun g => g.fid)) hN
      have hnd2 := (List.nodup_cons.mp hnd).2
      have hfm := (List.nodup_cons.mp hnd).1
      have hmem2 : ∀ g ∈ tl, g ∈ (sweepDeleteOne s f).files := by
        intro g hgtl
        have hgs : g ∈ s.files := hmem g (List.mem_cons_of_mem f hgtl)
        have hgf : g ≠ f := fun h => hfm (h ▸ hgtl)
        rw [hfiles2]
        rw [hsplit] at hgs
        rcases List.mem_append.mp hgs with h | h
        · exact List.mem_append_left l2 h
        · rcases List.mem_cons.mp h with h | h
          · exact absurd h hgf
          · exact List.mem_append_right l1 h
      rw [foldSweep_files tl (sweepDeleteOne s f) hN2 hnd2 hmem2, hfiles2, hsplit]
      have hne1 : ∀ g ∈ l1, g ≠ f := by
        intro g hgl hc
        exact hfid1 g hgl (congrArg FileEntry.fid hc)
      have hne2 : ∀ g ∈ l2, g ≠ f := by
        intro g hgl hc
        exact hfid2 g hgl (congrArg FileEntry.fid hc)
      have hc1 : l1.filter (fun g => !(decide (g ∈ tl)))
          = l1.filter (fun g => !(decide (g ∈ f :: tl))) := by
        refine List.filter_congr ?_
        intro g hgl
        simp [List.mem_cons, hne1 g hgl]
      have hc2 : l2.filter (fun g => !(decide (g ∈ tl)))
          = l2.filter (fun g => !(decide (g ∈ f :: tl))) := by
        refine List.filter_congr ?_
        intro g hgl
        simp [List.mem_cons, hne2 g hgl]
      rw [List.filter_append, List.filter_append, List.filter_cons, ← hc1, ← hc2]
      simp

theorem foldInc_files :
    ∀ (l : List Nat) (g : Nat → Int) (s : St),
      (l.foldl (fun t uid => incStorage t uid (g uid)) s).files = s.files
  | [], _, _ => rfl
  | u :: tl, g, s => by
      rw [List.foldl_cons]
      exact foldInc_files tl g _

theorem foldInc_accounts :
    ∀ (l : List Nat) (g : Nat → Int) (s : St) (v : Nat), l.Nodup →
      (l.foldl (fun t uid => incStorage t uid (g uid)) s).accounts v
        = if v ∈ l then
            { s.accounts v with storageUsed := (s.accounts v).storageUsed + g v }
          else s.accounts v
  | [], _, _, v, _ => by simp
  | u :: tl, g, s, v, hnd => by
      rw [List.foldl_cons, foldInc_accounts tl g _ v (List.nodup_cons.mp hnd).2]
      by_cases hv : v = u
      · have hvtl : v ∉ tl := hv ▸ (List.nodup_cons.mp hnd).1
        rw [if_neg hvtl, incStorage_accounts, if_pos hv,
            if_pos (List.mem_cons.mpr (Or.inl hv)), hv]
      · simp [incStorage_accounts, hv, List.mem_cons]

theorem ownerFreed_zero_of_not_owner (l : List FileEntry) (uid : Nat)
    (h : uid ∉ sweepOwners l) : ownerFreed l uid = 0 := by
  have h2 : uid ∉ l.map (fun f => f.userId) := fun hm => h (List.mem_dedup.mpr hm)
  have hfe : l.filter (fun f => f.userId == uid) = [] := by
    refine List.filter_eq_nil_iff.mpr ?_
    intro f hf
    simp only [beq_iff_eq]
    intro hfu
    exact h2 (hfu ▸ List.mem_map_of_mem (fun f => f.userId) hf)
  rw [ownerFreed, hfe]
  rfl

theorem getExpiredFiles_nodup (s : St) (now : Int) (hN : UniqueIds s) :
    (getExpiredFiles s.files now).Nodup := by
  have hfn : (s.files.map (fun f => f.fid)).Nodup := hN
  exact (List.Nodup.of_map (fun f => f.fid) hfn).sublist (List.filter_sublist s.files)

theorem getExpiredFiles_mem (s : St) (now : Int) :
    ∀ f ∈ getExpiredFiles s.files now, f ∈ s.files := by
  intro f hf
  exact (List.mem_filter.mp hf).1

theorem cleanup_state_files (s : St) (now : Int) (hN : UniqueIds s) :
    (cleanupExpiredFiles s now).2.files
      = s.files.filter (fun f => !(decide (f.expiresAt < now))) := by
  simp only [cleanupExpiredFiles]
  rw [foldInc_files,
      foldSweep_files (getExpiredFiles s.files now) s hN
        (getExpiredFiles_nodup s now hN) (getExpiredFiles_mem s now)]
  refine List.filter_congr ?_
  intro g hgs
  by_cases h : g.expiresAt < now
  · have hmem : g ∈ getExpiredFiles s.files now :=
      List.mem_filter.mpr ⟨hgs, by simpa using h⟩
    simp [h, hmem]
  · have hmem : g ∉ getExpiredFiles s.files now := fun hm => h (by
      simpa using (List.mem_filter.mp hm).2)
    simp [h, hmem]

theorem cleanup_accounts (s : St) (now : Int) (v : Nat) :
    (cleanupExpiredFiles s now).2.accounts v
      = { s.accounts v with storageUsed :=
          (s.accounts v).storageUsed
            - (ownerFreed (getExpiredFiles s.files now) v : Int) } := by
  simp only [cleanupExpiredFiles]
  rw [foldInc_accounts (sweepOwners (getExpiredFiles s.files now))
        (fun uid => -(ownerFreed (getExpiredFiles s.files now) uid : Int))
        (List.foldl sweepDeleteOne s (getExpiredFiles s.files now)) v
        (List.nodup_dedup _),
      foldSweep_accounts]
  by_cases hv : v ∈ sweepOwners (getExpiredFiles s.files now)
  · rw [if_pos hv]
    simp [sub_eq_add_neg]
  · rw [if_neg hv, ownerFreed_zero_of_not_owner _ _ hv]
    simp

theorem cleanup_result (s : St) (now : Int) :
    (cleanupExpiredFiles s now).1
      = ⟨(getExpiredFiles s.files now).length,
         ((getExpiredFiles s.files now).map (fun f => f.fileSize)).sum⟩ := rfl

theorem good_cleanup (s : St) (now : Int) (hg : Good s) : Good (cleanupExpiredFiles s now).2 := by
  have hfiles := cleanup_state_files s now hg.1
  constructor
  · show ((cleanupExpiredFiles s now).2.files.map (fun f => f.fid)).Nodup
    rw [hfiles]
    have hN : (s.files.map (fun f => f.fid)).Nodup := hg.1
    exact hN.sublist ((List.filter_sublist s.files).map (fun f => f.fid))
  · intro uid
    rw [cleanup_accounts]
    have hpart := ownerFreed_partition (fun f => decide (f.expiresAt < now)) s.files uid
    have howned : ownedSize (cleanupExpiredFiles s now).2 uid
        = ownerFreed (s.files.filter (fun f => !(decide (f.expiresAt < now)))) uid := by
      rw [ownedSize, hfiles]
    have hused : (s.accounts uid).storageUsed = (ownedSize s uid : Int) := (hg.2 uid).1
    have hfreed : ownerFreed (getExpiredFiles s.files now) uid
        = ownerFreed (s.files.filter (fun f => decide (f.expiresAt < now))) uid := rfl
    constructor
    · show (s.accounts uid).storageUsed
          - (ownerFreed (getExpiredFiles s.files now) uid : Int) = _
      rw [hused, howned, hfreed, ownedSize, hpart]
      push_cast
      ring
    · show (s.accounts uid).storageUsed
          - (ownerFreed (getExpiredFiles s.files now) uid : Int)
          ≤ (s.accounts uid).storageLimit
      have h1 : (0 : Int) ≤ (ownerFreed (getExpiredFiles s.files now) uid : Int) :=
        Int.natCast_nonneg _
      have h2 := (hg.2 uid).2
      omega

theorem good_stepOp (s : St) (op : Op) (hg : Good s) (hw : WFOp s op) :
    Good (stepOp s op) := by
  cases op with
  | upload uid now batch => exact good_uploadFiles s uid now batch hg hw.1 hw.2
  | delete uid fid => exact good_deleteFile s uid fid hg
  | deleteMulti uid fids => exact good_deleteMultipleFiles s uid fids hg
  | sweep now => exact good_cleanup s now hg

theorem good_run :
    ∀ (ops : List Op) (s : St), Good s → WFOps s ops → Good (run s ops)
  | [], _, hg, _ => hg
  | op :: ops, s, hg, hw =>
      good_run ops (stepOp s op) (good_stepOp s op hg hw.1) hw.2

theorem find?_owned_self (s : St) (uid : Nat) (f : FileEntry) (hN : UniqueIds s)
    (hf : f ∈ s.files) (ho : f.userId = uid) :
    s.files.find? (fun g => g.fid == f.fid && g.userId == uid) = some f := by
  have hN2 : (s.files.map (fun g => g.fid)).Nodup := hN
  cases hfind : s.files.find? (fun g => g.fid == f.fid && g.userId == uid) with
  | none =>
      exfalso
      have := List.find?_eq_none.mp hfind f hf
      apply this
      simp [ho]
  | some g =>
      have hgmem := List.mem_of_find?_eq_some hfind
      have hgp := List.find?_some hfind
      simp only [Bool.and_eq_true, beq_iff_eq] at hgp
      have : g = f := List.inj_on_of_nodup_map hN2 hgmem hf hgp.1
      rw [this]

theorem find?_none_after_delete (s : St) (uid : Nat) (f : FileEntry)
    (hN : UniqueIds s) (hf : f ∈ s.files) :
    (docDeleteOne s f).files.find? (fun g => g.fid == f.fid && g.userId == uid)
      = none := by
  obtain ⟨l1, l2, _, herase, hfid1, hfid2⟩ := erase_decomp s.files f hN hf
  rw [docDeleteOne_files, herase]
  refine List.find?_eq_none.mpr ?_
  intro g hg hp
  simp only [Bool.and_eq_true, beq_iff_eq] at hp
  rcases List.mem_append.mp hg with h | h
  · exact hfid1 g h hp.1
  · exact hfid2 g h hp.1

theorem find?_none_absent (files : List FileEntry) (uid fid : Nat)
    (h : ∀ g ∈ files, g.fid ≠ fid) :
    files.find? (fun g => g.fid == fid && g.userId == uid) = none := by
  refine List.find?_eq_none.mpr ?_
  intro g hg hp
  simp only [Bool.and_eq_true, beq_iff_eq] at hp
  exact h g hg hp.1

theorem find?_none_foreign (s : St) (uid : Nat) (f : FileEntry) (hN : UniqueIds s)
    (hf : f ∈ s.files) (ho : f.userId ≠ uid) :
    s.files.find? (fun g => g.fid == f.fid && g.userId == uid) = none := by
  have hN2 : (s.files.map (fun g => g.fid)).Nodup := hN
  refine List.find?_eq_none.mpr ?_
  intro g hg hp
  simp only [Bool.and_eq_true, beq_iff_eq] at hp
  have hgf : g = f := List.inj_on_of_nodup_map hN2 hg hf hp.1
  exact ho (hgf ▸ hp.2)

theorem clipFind?_none_absent (clips : List ClipEntry) (uid cid : Nat)
    (h : ∀ d ∈ clips, d.cid ≠ cid) :
    clips.find? (fun d => d.cid == cid && d.userId == uid) = none := by
  refine List.find?_eq_none.mpr ?_
  intro d hd hp
  simp only [Bool.and_eq_true, beq_iff_eq] at hp
  exact h d hd hp.1

theorem clipFind?_none_foreign (clips : List ClipEntry) (uid : Nat) (c : ClipEntry)
    (hN : (clips.map (fun d => d.cid)).Nodup)
    (hc : c ∈ clips) (ho : c.userId ≠ uid) :
    clips.find? (fun d => d.cid == c.cid && d.userId == uid) = none := by
  refine List.find?_eq_none.mpr ?_
  intro d hd hp
  simp only [Bool.and_eq_true, beq_iff_eq] at hp
  have hdc : d = c := List.inj_on_of_nodup_map hN hd hc hp.1
  exact ho (hdc ▸ hp.2)

/-! Claim theorems. -/

/-- C1: for every account, after any sequence of committed create and delete
operations (user uploads, user deletes, multi deletes, sweeper deletes)
starting from a state satisfying the ledger invariant, the account
storageUsed satisfies 0 <= storageUsed <= storageLimit. -/
theorem storage_invariant_after_committed_ops (s : St) (ops : List Op)
    (hg : Good s) (hw : WFOps s ops) (uid : Nat) :
    0 ≤ ((run s ops).accounts uid).storageUsed ∧
    ((run s ops).accounts uid).storageUsed
      ≤ ((run s ops).accounts uid).storageLimit := by
  have h := good_run ops s hg hw
  obtain ⟨heq, hle⟩ := h.2 uid
  refine ⟨?_, hle⟩
  rw [heq]
  exact Int.natCast_nonneg _

/-- Witness for C1: a fresh account uploads a 100-byte file, deletes it and a
sweeper run follows; usage stays within 0 and the 1000-byte limit. -/
theorem storage_invariant_witness :
    0 ≤ ((run ⟨fun _ => ⟨0, 1000⟩, [], []⟩
        [Op.upload 7 0 [⟨1, 100, 5⟩], Op.delete 7 1, Op.sweep 0]).accounts 7).storageUsed ∧
    ((run ⟨fun _ => ⟨0, 1000⟩, [], []⟩
        [Op.upload 7 0 [⟨1, 100, 5⟩], Op.delete 7 1, Op.sweep 0]).accounts 7).storageUsed
      ≤ ((run ⟨fun _ => ⟨0, 1000⟩, [], []⟩
        [Op.upload 7 0 [⟨1, 100, 5⟩], Op.delete 7 1, Op.sweep 0]).accounts 7).storageLimit :=
  storage_invariant_after_committed_ops ⟨fun _ => ⟨0, 1000⟩, [], []⟩
    [Op.upload 7 0 [⟨1, 100, 5⟩], Op.delete 7 1, Op.sweep 0]
    ⟨List.nodup_nil, fun uid => ⟨rfl, (by norm_num : (0 : Int) ≤ 1000)⟩⟩
    ⟨⟨by decide, by decide⟩, trivial, trivial, trivial⟩ 7

/-- C2: a successful upload of a batch with total size S by an account with
usage u leaves the persisted storageUsed at exactly u + S: the per-file
post-save increments are overwritten by the controller updateStorage save of
the request snapshot, so no byte is double counted. -/
theorem upload_storage_counted_once (s : St) (uid : Nat) (now : Int)
    (batch : List UploadedFile) (hne : batch ≠ [])
    (hpos : 0 ≤ (s.accounts uid).storageUsed)
    (hadm : hasStorageSpace (s.accounts uid)
      ((batch.map (fun u => (u.size : Int))).sum) = true) :
    (uploadFiles s uid now batch).1.status = 201 ∧
    ((uploadFiles s uid now batch).2.accounts uid).storageUsed
      = (s.accounts uid).storageUsed + (batch.map (fun u => (u.size : Int))).sum := by
  have he : ¬batch.isEmpty = true := by
    cases batch with
    | nil => exact absurd rfl hne
    | cons u tl => simp
  rw [uploadFiles_admit_state s uid now batch he hadm]
  refine ⟨rfl, ?_⟩
  rw [setStorage_accounts, if_pos rfl]
  have h1 : (0 : Int) ≤ (batch.map (fun u => (u.size : Int))).sum := by
    rw [sumInt_eq]
    exact Int.natCast_nonneg _
  exact max_eq_right (by omega)

/-- Witness for C2: usage 200, uploading two files of 100 and 50 bytes ends
with persisted usage exactly 350. -/
theorem upload_storage_counted_once_witness :
    (uploadFiles ⟨fun _ => ⟨200, 1000⟩, [], []⟩ 7 0 [⟨1, 100, 5⟩, ⟨2, 50, 6⟩]).1.status = 201 ∧
    ((uploadFiles ⟨fun _ => ⟨200, 1000⟩, [], []⟩ 7 0 [⟨1, 100, 5⟩, ⟨2, 50, 6⟩]).2.accounts 7).storageUsed
      = ((⟨fun _ => ⟨200, 1000⟩, [], []⟩ : St).accounts 7).storageUsed
        + (([⟨1, 100, 5⟩, ⟨2, 50, 6⟩] : List UploadedFile).map (fun u => (u.size : Int))).sum :=
  upload_storage_counted_once ⟨fun _ => ⟨200, 1000⟩, [], []⟩ 7 0
    [⟨1, 100, 5⟩, ⟨2, 50, 6⟩] (by decide) (by decide) (by decide)

/-- C3 counterexample: the store query uses a strict comparison and no sort,
so an entry whose expiresAt equals asOf is not produced, and entries come
out in store order, not ascending expiry order. -/
theorem dueEntries_claim_cex :
    ((⟨1, 7, 10, 5, 100⟩ : FileEntry).expiresAt ≤ 100 ∧
     getExpiredFiles [⟨1, 7, 10, 5, 100⟩] 100 = []) ∧
    (getExpiredFiles [⟨1, 7, 10, 5, 50⟩, ⟨2, 7, 10, 6, 30⟩] 100
        = [⟨1, 7, 10, 5, 50⟩, ⟨2, 7, 10, 6, 30⟩] ∧
     (⟨2, 7, 10, 6, 30⟩ : FileEntry).expiresAt
        < (⟨1, 7, 10, 5, 50⟩ : FileEntry).expiresAt) := by
  decide

/-- C3 amended: dueEntries(asOf) produces exactly the entries with
expiresAt strictly less than asOf (an entry expiring exactly at asOf is
excluded), in store order (a subsequence of the collection), with no
ascending-expiry sort. -/
theorem dueEntries_strict_in_store_order (files : List FileEntry) (asOf : Int) :
    (∀ f, f ∈ getExpiredFiles files asOf ↔ f ∈ files ∧ f.expiresAt < asOf) ∧
    List.Sublist (getExpiredFiles files asOf) files := by
  constructor
  · intro f
    simp [getExpiredFiles, List.mem_filter]
  · exact List.filter_sublist files

/-- C4 counterexample: on the deletion path the raw negative increment is
not clamped: deleting a 100-byte file while the persisted usage is 0 drives
storageUsed to -100. -/
theorem delete_commit_unclamped_cex :
    ((deleteFile ⟨fun _ => ⟨0, 1000⟩, [⟨1, 7, 100, 5, 50⟩], []⟩ 7 1).2.accounts 7).storageUsed
      < 0 := by
  decide

/-- C4 amended: only the upload-side commit updateStorage clamps the result
at zero; the deletion commits (the document pre-delete hook and the sweeper
per-owner updates) apply the raw signed delta with no clamp. -/
theorem commit_clamped_only_on_upload_path (a : Account) (bytes : Int)
    (s : St) (f : FileEntry) (t : St) (now : Int) (v : Nat) :
    (updateStorage a bytes).storageUsed = max 0 (a.storageUsed + bytes) ∧
    ((docDeleteOne s f).accounts f.userId).storageUsed
      = (s.accounts f.userId).storageUsed - (f.fileSize : Int) ∧
    ((cleanupExpiredFiles t now).2.accounts v).storageUsed
      = (t.accounts v).storageUsed
        - (ownerFreed (getExpiredFiles t.files now) v : Int) := by
  refine ⟨rfl, ?_, ?_⟩
  · rw [docDeleteOne_accounts, if_pos rfl]
  · rw [cleanup_accounts]

/-- C5: one sweeper run deletes exactly the past-expiry entries, reports
freedSpace equal to the sum of their sizes, decrements each owning account
by the total size of its deleted entries, and leaves the future entries
and every account limit untouched. -/
theorem sweeper_one_run_convergence (s : St) (now : Int) (hN : UniqueIds s) :
    ((cleanupExpiredFiles s now).1.deletedCount
        = (getExpiredFiles s.files now).length) ∧
    ((cleanupExpiredFiles s now).1.freedSpace
        = ((getExpiredFiles s.files now).map (fun f => f.fileSize)).sum) ∧
    ((cleanupExpiredFiles s now).2.files
        = s.files.filter (fun f => !(decide (f.expiresAt < now)))) ∧
    ∀ uid, ((cleanupExpiredFiles s now).2.accounts uid).storageUsed
        = (s.accounts uid).storageUsed
          - (ownerFreed (getExpiredFiles s.files now) uid : Int) ∧
      ((cleanupExpiredFiles s now).2.accounts uid).storageLimit
        = (s.accounts uid).storageLimit := by
  refine ⟨rfl, rfl, cleanup_state_files s now hN, ?_⟩
  intro uid
  rw [cleanup_accounts]
  exact ⟨rfl, rfl⟩

/-- Witness for C5: with two expired files (sizes 10 and 20, owners 7 and 8)
and one future file, the run deletes both expired entries and frees 30. -/
theorem sweeper_one_run_convergence_witness :
    ((cleanupExpiredFiles sweepWitSt 1000).1.deletedCount
        = (getExpiredFiles sweepWitSt.files 1000).length) ∧
    ((cleanupExpiredFiles sweepWitSt 1000).1.freedSpace
        = ((getExpiredFiles sweepWitSt.files 1000).map (fun f => f.fileSize)).sum) ∧
    ((cleanupExpiredFiles sweepWitSt 1000).2.files
        = sweepWitSt.files.filter (fun f => !(decide (f.expiresAt < 1000)))) ∧
    ∀ uid, ((cleanupExpiredFiles sweepWitSt 1000).2.accounts uid).storageUsed
        = (sweepWitSt.accounts uid).storageUsed
          - (ownerFreed (getExpiredFiles sweepWitSt.files 1000) uid : Int) ∧
      ((cleanupExpiredFiles sweepWitSt 1000).2.accounts uid).storageLimit
        = (sweepWitSt.accounts uid).storageLimit :=
  sweeper_one_run_convergence sweepWitSt 1000 (by decide)

/-- C6: admission accepts an upload exactly when used plus requested stays
within the limit; on denial the response is the storage-limit rejection and
no account or file state is mutated, while the temp payloads are removed. -/
theorem admission_accept_iff_no_mutation_on_deny (s : St) (uid : Nat) (now : Int)
    (batch : List UploadedFile) (hne : batch ≠ []) :
    ((uploadFiles s uid now batch).1.status = 201 ↔
      (s.accounts uid).storageUsed + (batch.map (fun u => (u.size : Int))).sum
        ≤ (s.accounts uid).storageLimit) ∧
    ((s.accounts uid).storageLimit
        < (s.accounts uid).storageUsed + (batch.map (fun u => (u.size : Int))).sum →
      (uploadFiles s uid now batch).1 = ⟨400, STORAGE_LIMIT_MSG⟩ ∧
      (uploadFiles s uid now batch).2.accounts = s.accounts ∧
      (uploadFiles s uid now batch).2.files = s.files ∧
      ∀ u ∈ batch, u.path ∉ (uploadFiles s uid now batch).2.disk) := by
  have he : ¬batch.isEmpty = true := by
    cases batch with
    | nil => exact absurd rfl hne
    | cons u tl => simp
  by_cases hsp : hasStorageSpace (s.accounts uid)
      ((batch.map (fun u => (u.size : Int))).sum) = true
  · have hle := of_decide_eq_true hsp
    rw [uploadFiles_admit_state s uid now batch he hsp]
    refine ⟨iff_of_true rfl hle, ?_⟩
    intro hlt
    exact absurd hle (not_le.mpr hlt)
  · have hnle : ¬((s.accounts uid).storageUsed
        + (batch.map (fun u => (u.size : Int))).sum ≤ (s.accounts uid).storageLimit) :=
      fun hc => hsp (decide_eq_true hc)
    rw [uploadFiles_deny_state s uid now batch he hsp]
    have h400 : (400 : Nat) = 201 → False := by norm_num
    refine ⟨iff_of_false h400 hnle, ?_⟩
    intro hlt
    refine ⟨rfl, rfl, rfl, ?_⟩
    intro u hu
    exact unlinkFold_not_mem batch s.disk u hu

/-- Witness for C6: used 900, limit 1000, uploading one 150-byte file is
denied, nothing is mutated and the temp payload at path 5 disappears. -/
theorem admission_witness :
    ((uploadFiles admissionWitSt 7 0 [⟨1, 150, 5⟩]).1.status = 201 ↔
      (admissionWitSt.accounts 7).storageUsed
        + (([⟨1, 150, 5⟩] : List UploadedFile).map (fun u => (u.size : Int))).sum
        ≤ (admissionWitSt.accounts 7).storageLimit) ∧
    ((admissionWitSt.accounts 7).storageLimit
        < (admissionWitSt.accounts 7).storageUsed
          + (([⟨1, 150, 5⟩] : List UploadedFile).map (fun u => (u.size : Int))).sum →
      (uploadFiles admissionWitSt 7 0 [⟨1, 150, 5⟩]).1 = ⟨400, STORAGE_LIMIT_MSG⟩ ∧
      (uploadFiles admissionWitSt 7 0 [⟨1, 150, 5⟩]).2.accounts = admissionWitSt.accounts ∧
      (uploadFiles admissionWitSt 7 0 [⟨1, 150, 5⟩]).2.files = admissionWitSt.files ∧
      ∀ u ∈ ([⟨1, 150, 5⟩] : List UploadedFile),
        u.path ∉ (uploadFiles admissionWitSt 7 0 [⟨1, 150, 5⟩]).2.disk) :=
  admission_accept_iff_no_mutation_on_deny admissionWitSt 7 0 [⟨1, 150, 5⟩] (by decide)

/-- C7: remove is idempotent: deleting an owned file succeeds and decrements
the owner once; a second delete of the same id is a 404 no-op that leaves
the state, and hence the quota, unchanged. -/
theorem remove_idempotent (s : St) (uid : Nat) (f : FileEntry)
    (hN : UniqueIds s) (hf : f ∈ s.files) (ho : f.userId = uid) :
    (deleteFile s uid f.fid).1.status = 200 ∧
    (deleteFile (deleteFile s uid f.fid).2 uid f.fid).1 = ⟨404, FILE_NOT_FOUND⟩ ∧
    (deleteFile (deleteFile s uid f.fid).2 uid f.fid).2 = (deleteFile s uid f.fid).2 ∧
    ((deleteFile s uid f.fid).2.accounts uid).storageUsed
      = (s.accounts uid).storageUsed - (f.fileSize : Int) := by
  have h1 : deleteFile s uid f.fid = (⟨200, FILE_DELETED_MSG⟩, docDeleteOne s f) := by
    unfold deleteFile
    rw [find?_owned_self s uid f hN hf ho]
  have h2 : deleteFile (docDeleteOne s f) uid f.fid
      = (⟨404, FILE_NOT_FOUND⟩, docDeleteOne s f) := by
    unfold deleteFile
    rw [find?_none_after_delete s uid f hN hf]
  rw [h1]
  refine ⟨rfl, ?_, ?_, ?_⟩
  · show (deleteFile (docDeleteOne s f) uid f.fid).1 = _
    rw [h2]
  · show (deleteFile (docDeleteOne s f) uid f.fid).2 = docDeleteOne s f
    rw [h2]
  · rw [docDeleteOne_accounts, if_pos ho.symm]

/-- Witness for C7: deleting file 1 of user 7 succeeds and frees 100 bytes;
repeating the delete returns the not-found response and changes nothing. -/
theorem remove_idempotent_witness :
    (deleteFile removeWitSt 7 1).1.status = 200 ∧
    (deleteFile (deleteFile removeWitSt 7 1).2 7 1).1 = ⟨404, FILE_NOT_FOUND⟩ ∧
    (deleteFile (deleteFile removeWitSt 7 1).2 7 1).2 = (deleteFile removeWitSt 7 1).2 ∧
    ((deleteFile removeWitSt 7 1).2.accounts 7).storageUsed
      = (removeWitSt.accounts 7).storageUsed - ((⟨1, 7, 100, 5, 50⟩ : FileEntry).fileSize : Int) :=
  remove_idempotent removeWitSt 7 ⟨1, 7, 100, 5, 50⟩ (by decide) (by decide) rfl

/-- C8: deleting a file whose physical payload is already absent on disk
still succeeds on both paths: the user delete removes the metadata and
decrements the owner by the file size, and a sweeper run still removes the
expired record and decrements the owner by at least that size. -/
theorem delete_tolerates_missing_payload (s : St) (uid : Nat) (f : FileEntry)
    (now : Int) (hN : UniqueIds s) (hf : f ∈ s.files) (ho : f.userId = uid)
    (habs : f.filePath ∉ s.disk) :
    ((deleteFile s uid f.fid).1.status = 200 ∧
     (∀ g ∈ (deleteFile s uid f.fid).2.files, g.fid ≠ f.fid) ∧
     ((deleteFile s uid f.fid).2.accounts uid).storageUsed
        = (s.accounts uid).storageUsed - (f.fileSize : Int)) ∧
    (f.expiresAt < now →
      f ∉ (cleanupExpiredFiles s now).2.files ∧
      ((cleanupExpiredFiles s now).2.accounts uid).storageUsed
        ≤ (s.accounts uid).storageUsed - (f.fileSize : Int)) := by
  have h1 : deleteFile s uid f.fid = (⟨200, FILE_DELETED_MSG⟩, docDeleteOne s f) := by
    unfold deleteFile
    rw [find?_owned_self s uid f hN hf ho]
  constructor
  · rw [h1]
    refine ⟨rfl, ?_, ?_⟩
    · intro g hg
      obtain ⟨l1, l2, hsplit, herase, hfid1, hfid2⟩ := erase_decomp s.files f hN hf
      rw [docDeleteOne_files, herase] at hg
      rcases List.mem_append.mp hg with h | h
      · exact hfid1 g h
      · exact hfid2 g h
    · rw [docDeleteOne_accounts, if_pos ho.symm]
  · intro hnow
    have hexp : f ∈ getExpiredFiles s.files now :=
      List.mem_filter.mpr ⟨hf, by simpa using hnow⟩
    constructor
    · rw [cleanup_state_files s now hN]
      intro hmem
      have hkeep := (List.mem_filter.mp hmem).2
      simp [hnow] at hkeep
    · rw [cleanup_accounts]
      have hsz : f.fileSize ≤ ownerFreed (getExpiredFiles s.files now) uid := by
        have hmemf : f ∈ (getExpiredFiles s.files now).filter (fun g => g.userId == uid) :=
          List.mem_filter.mpr ⟨hexp, by simp [ho]⟩
        have hmap : f.fileSize ∈
            ((getExpiredFiles s.files now).filter (fun g => g.userId == uid)).map
              (fun g => g.fileSize) :=
          List.mem_map_of_mem (fun g => g.fileSize) hmemf
        exact List.single_le_sum (fun x _ => Nat.zero_le x) _ hmap
      have hszi : (f.fileSize : Int)
          ≤ (ownerFreed (getExpiredFiles s.files now) uid : Int) := by
        exact_mod_cast hsz
      show (s.accounts uid).storageUsed
          - (ownerFreed (getExpiredFiles s.files now) uid : Int) ≤ _
      omega

/-- Witness for C8: the single file of user 7 has no payload on disk, yet
the delete succeeds with the full 100-byte decrement, and a sweep at time
60 also removes it. -/
theorem delete_tolerates_missing_payload_witness :
    ((deleteFile missingWitSt 7 1).1.status = 200 ∧
     (∀ g ∈ (deleteFile missingWitSt 7 1).2.files, g.fid ≠ (⟨1, 7, 100, 5, 50⟩ : FileEntry).fid) ∧
     ((deleteFile missingWitSt 7 1).2.accounts 7).storageUsed
        = (missingWitSt.accounts 7).storageUsed
          - ((⟨1, 7, 100, 5, 50⟩ : FileEntry).fileSize : Int)) ∧
    ((⟨1, 7, 100, 5, 50⟩ : FileEntry).expiresAt < 60 →
      (⟨1, 7, 100, 5, 50⟩ : FileEntry) ∉ (cleanupExpiredFiles missingWitSt 60).2.files ∧
      ((cleanupExpiredFiles missingWitSt 60).2.accounts 7).storageUsed
        ≤ (missingWitSt.accounts 7).storageUsed
          - ((⟨1, 7, 100, 5, 50⟩ : FileEntry).fileSize : Int)) :=
  delete_tolerates_missing_payload missingWitSt 7 ⟨1, 7, 100, 5, 50⟩ 60
    (by decide) (by decide) rfl (by decide)

/-- C9: a read of an absent entry and a read of an entry owned by another
account fail with the same 404 response, for files and for clips, so the
caller cannot distinguish foreign content from nonexistent content. -/
theorem get_no_existence_leak (s : St) (clips : List ClipEntry) (uidA : Nat)
    (fid2 : Nat) (f : FileEntry) (hN : UniqueIds s)
    (habs : ∀ g ∈ s.files, g.fid ≠ fid2)
    (hf : f ∈ s.files) (hof : f.userId ≠ uidA)
    (cid2 : Nat) (c : ClipEntry) (hNc : (clips.map (fun d => d.cid)).Nodup)
    (hcabs : ∀ d ∈ clips, d.cid ≠ cid2)
    (hc : c ∈ clips) (hoc : c.userId ≠ uidA) :
    getFile s uidA fid2 = .error ⟨404, FILE_NOT_FOUND⟩ ∧
    getFile s uidA f.fid = .error ⟨404, FILE_NOT_FOUND⟩ ∧
    getFile s uidA fid2 = getFile s uidA f.fid ∧
    getClip clips uidA cid2 = .error ⟨404, CLIP_NOT_FOUND⟩ ∧
    getClip clips uidA c.cid = .error ⟨404, CLIP_NOT_FOUND⟩ ∧
    getClip clips uidA cid2 = getClip clips uidA c.cid := by
  have h1 : getFile s uidA fid2 = .error ⟨404, FILE_NOT_FOUND⟩ := by
    unfold getFile
    rw [find?_none_absent s.files uidA fid2 habs]
  have h2 : getFile s uidA f.fid = .error ⟨404, FILE_NOT_FOUND⟩ := by
    unfold getFile
    rw [find?_none_foreign s uidA f hN hf hof]
  have h3 : getClip clips uidA cid2 = .error ⟨404, CLIP_NOT_FOUND⟩ := by
    unfold getClip
    rw [clipFind?_none_absent clips uidA cid2 hcabs]
  have h4 : getClip clips uidA c.cid = .error ⟨404, CLIP_NOT_FOUND⟩ := by
    unfold getClip
    rw [clipFind?_none_foreign clips uidA c hNc hc hoc]
  exact ⟨h1, h2, h1.trans h2.symm, h3, h4, h3.trans h4.symm⟩

/-- Witness for C9: user 7 requests id 2 (absent) and id 1 (owned by user
8); both file and clip reads return the identical 404 responses. -/
theorem get_no_existence_leak_witness :
    getFile leakWitSt 7 2 = .error ⟨404, FILE_NOT_FOUND⟩ ∧
    getFile leakWitSt 7 (⟨1, 8, 100, 5, 50⟩ : FileEntry).fid = .error ⟨404, FILE_NOT_FOUND⟩ ∧
    getFile leakWitSt 7 2 = getFile leakWitSt 7 (⟨1, 8, 100, 5, 50⟩ : FileEntry).fid ∧
    getClip leakWitClips 7 2 = .error ⟨404, CLIP_NOT_FOUND⟩ ∧
    getClip leakWitClips 7 (⟨1, 8, 50⟩ : ClipEntry).cid = .error ⟨404, CLIP_NOT_FOUND⟩ ∧
    getClip leakWitClips 7 2 = getClip leakWitClips 7 (⟨1, 8, 50⟩ : ClipEntry).cid :=
  get_no_existence_leak leakWitSt leakWitClips 7 2 ⟨1, 8, 100, 5, 50⟩
    (by decide) (by decide) (by decide) (by decide)
    2 ⟨1, 8, 50⟩ (by decide) (by decide) (by decide) (by decide)

/-- C10: extendExpiry sets expiresAt to the call time plus the given number
of days (default 7) for files and clips alike, ignoring the previous value,
so a call on an entry with more remaining lifetime moves its expiry earlier. -/
theorem extendExpiry_sets_absolute_window (f : FileEntry) (c : ClipEntry)
    (now : Int) (d : Nat)
    (hfar : now + (d * msPerDay : Nat) < f.expiresAt) :
    (extendExpiry f now d).expiresAt = now + (d * msPerDay : Nat) ∧
    (clipExtendExpiry c now d).expiresAt = now + (d * msPerDay : Nat) ∧
    (extendExpiryDefault f now).expiresAt = now + (7 * msPerDay : Nat) ∧
    (clipExtendExpiryDefault c now).expiresAt = now + (7 * msPerDay : Nat) ∧
    (extendExpiry f now d).expiresAt < f.expiresAt := by
  exact ⟨rfl, rfl, rfl, rfl, hfar⟩

/-- Witness for C10: a file that would live until time 10^14 is cut back to
one day from time 0 by extendExpiry with d = 1. -/
theorem extendExpiry_sets_absolute_window_witness :
    (extendExpiry ⟨1, 7, 10, 5, 100000000000000⟩ 0 1).expiresAt = 0 + ((1 * msPerDay : Nat) : Int) ∧
    (clipExtendExpiry ⟨1, 7, 40⟩ 0 1).expiresAt = 0 + ((1 * msPerDay : Nat) : Int) ∧
    (extendExpiryDefault ⟨1, 7, 10, 5, 100000000000000⟩ 0).expiresAt = 0 + ((7 * msPerDay : Nat) : Int) ∧
    (clipExtendExpiryDefault ⟨1, 7, 40⟩ 0).expiresAt = 0 + ((7 * msPerDay : Nat) : Int) ∧
    (extendExpiry ⟨1, 7, 10, 5, 100000000000000⟩ 0 1).expiresAt
      < (⟨1, 7, 10, 5, 100000000000000⟩ : FileEntry).expiresAt :=
  extendExpiry_sets_absolute_window ⟨1, 7, 10, 5, 100000000000000⟩ ⟨1, 7, 40⟩ 0 1 (by decide)

end CampusShare
